import Mathlib

/-!
The xv6 system-call layer (`syscall.c`): argument fetching and dispatch.

A shallow embedding of `fetchint`, `fetchstr`, `argint`, `argptr`, `argstr`
and `syscall` from `syscall.c`.

Conventions of the embedding.

* A C `uint` is a natural number below `2^32`; a C `int` is an integer in
  `[-2^31, 2^31)`.  Every 32-bit addition of the source is written with an
  explicit `% 4294967296`.
* The global "current process" returned by `myproc()` is an explicit argument.
* An output parameter (`int *ip`, `char **pp`) is passed as the content of the
  pointed-to location before the call; the result carries its content after
  the call.
* Every result also carries the list of user-memory byte addresses the call
  dereferenced, in program order.
-/

namespace Xv6

/-- Conversion of an integer to `uint`: reduction modulo `2^32`. -/
def toUint (x : Int) : Nat := (x % 4294967296).toNat

/-- A 32-bit pattern read as a signed `int` (two's complement). -/
def toInt (u : Nat) : Int :=
  if u % 4294967296 < 2147483648 then ((u % 4294967296 : Nat) : Int)
  else ((u % 4294967296 : Nat) : Int) - 4294967296

/-- The saved user registers (`struct trapframe`, declared in `x86.h`).  Only
`eax` (call number on entry, return value on exit) and `esp` are used by
`syscall.c`; the remaining saved registers are kept as an uninterpreted list. -/
structure trapframe where
  eax : Nat
  esp : Nat
  others : List Nat

/-- The per-process state (`struct proc`, declared in `proc.h`), restricted to
the fields `syscall.c` uses, together with the process's memory: `mem a` is the
byte stored at virtual address `a` (taken modulo 256). -/
structure proc where
  sz : Nat
  tf : trapframe
  pid : Int
  name : String
  mem : Nat → Nat

/-- Result of one of the fetch functions: the C return value, the content of
the output location after the call, and the byte addresses that were read. -/
structure Fetched (α : Type) where
  ret : Int
  out : α
  reads : List Nat

/-- The byte at address `a` of the process's memory. -/
def loadByte (p : proc) (a : Nat) : Nat := p.mem a % 256

/-- The expression `*(int*)(addr)`: the four bytes at `addr .. addr+3` (32-bit
addresses), least significant first (x86), read as a signed `int`. -/
def loadInt (p : proc) (addr : Nat) : Int :=
  toInt (loadByte p addr + 256 * loadByte p ((addr + 1) % 4294967296)
    + 65536 * loadByte p ((addr + 2) % 4294967296)
    + 16777216 * loadByte p ((addr + 3) % 4294967296))

/-- Embedding of `fetchint(uint addr, int *ip)`; `ip` is the content of `*ip` before the call. -/
def fetchint (p : proc) (addr : Nat) (ip : Int) : Fetched Int :=
  if addr ≥ p.sz ∨ (addr + 4) % 4294967296 > p.sz then
    ⟨-1, ip, []⟩
  else
    ⟨0, loadInt p addr,
      [addr, (addr + 1) % 4294967296, (addr + 2) % 4294967296, (addr + 3) % 4294967296]⟩

/-- The `for(s = *pp; s < ep; s++)` loop of `fetchstr`, started at `s`: the value
returned by `fetchstr` and the addresses the loop dereferenced.  The returned
`s - *pp` has type `int`. -/
def fetchstrLoop (p : proc) (pp ep s : Nat) : Int × List Nat :=
  if s < ep then
    if loadByte p s = 0 then
      (toInt (s - pp), [s])
    else
      ((fetchstrLoop p pp ep (s + 1)).1, s :: (fetchstrLoop p pp ep (s + 1)).2)
  else
    (-1, [])
termination_by ep - s

/-- Embedding of `fetchstr(uint addr, char **pp)`; `pp` is the content of `*pp` before the call. -/
def fetchstr (p : proc) (addr : Nat) (pp : Nat) : Fetched Nat :=
  if addr ≥ p.sz then
    ⟨-1, pp, []⟩
  else
    ⟨(fetchstrLoop p addr p.sz addr).1, addr, (fetchstrLoop p addr p.sz addr).2⟩

/-- The address expression `(myproc()->tf->esp) + 4 + 4*n` of `argint`, computed
in `uint`: the `int` product `4*n` is converted to `uint` (reduced modulo `2^32`)
and both additions wrap. -/
def argAddr (p : proc) (n : Int) : Nat :=
  (p.tf.esp + 4 + toUint (4 * n)) % 4294967296

/-- Embedding of `argint(int n, int *ip)`. -/
def argint (p : proc) (n : Int) (ip : Int) : Fetched Int :=
  fetchint p (argAddr p n) ip

/-- Embedding of `argptr(int n, char **pp, int size)`.  The local `int i` is
uninitialised in the source; it is read only after `argint` stored into it, so
its initial content is taken to be `0`. -/
def argptr (p : proc) (n : Int) (pp : Nat) (size : Int) : Fetched Nat :=
  if (argint p n 0).ret < 0 then
    ⟨-1, pp, (argint p n 0).reads⟩
  else if size < 0 ∨ toUint (argint p n 0).out ≥ p.sz
      ∨ (toUint (argint p n 0).out + toUint size) % 4294967296 > p.sz then
    ⟨-1, pp, (argint p n 0).reads⟩
  else
    ⟨0, toUint (argint p n 0).out, (argint p n 0).reads⟩

/-- Embedding of `argstr(int n, char **pp)`; the local `int addr` is treated like `i` in `argptr`. -/
def argstr (p : proc) (n : Int) (pp : Nat) : Fetched Nat :=
  if (argint p n 0).ret < 0 then
    ⟨-1, pp, (argint p n 0).reads⟩
  else
    ⟨(fetchstr p (toUint (argint p n 0).out) pp).ret,
      (fetchstr p (toUint (argint p n 0).out) pp).out,
      (argint p n 0).reads ++ (fetchstr p (toUint (argint p n 0).out) pp).reads⟩

/-- A system-call handler `int (*)(void)`: it acts on the current process and returns an `int`. -/
abbrev handler : Type := proc → Int × proc

/-- One line written by `cprintf("%d %s: unknown sys call %d\n", pid, name, num)`,
recorded by its three format arguments. -/
structure Diag where
  pid : Int
  name : String
  num : Int
deriving DecidableEq

/-- What one run of `syscall()` did: the process state it leaves, the console
lines it wrote, the table indices whose handler it called, and the indices at
which it evaluated `syscalls[num]`, each in program order. -/
structure Dispatched where
  p : proc
  console : List Diag
  invoked : List Nat
  lookups : List Int

/-- The `else` branch of `syscall()`: report the unknown call and store `-1` in `tf->eax`. -/
def unknownCall (p : proc) (num : Int) (lookups : List Int) : Dispatched :=
  ⟨{ p with tf := { p.tf with eax := toUint (-1) } }, [⟨p.pid, p.name, num⟩], [], lookups⟩

/-- Embedding of `syscall(void)`.  The table `syscalls` is a list whose unbound
(null) slots are `none`; `NELEM(syscalls)` is its length, an unsigned value, so
`num < NELEM(syscalls)` compares `(uint)num`.  The conjunction short-circuits:
the table is indexed only after the two range tests passed. -/
def syscall (syscalls : List (Option handler)) (p : proc) : Dispatched :=
  if 0 < toInt p.tf.eax ∧ toUint (toInt p.tf.eax) < syscalls.length then
    match syscalls.get? (toInt p.tf.eax).toNat with
    | some (some h) =>
      ⟨{ (h p).2 with tf := { (h p).2.tf with eax := toUint (h p).1 } }, [],
        [(toInt p.tf.eax).toNat], [toInt p.tf.eax, toInt p.tf.eax]⟩
    | _ => unknownCall p (toInt p.tf.eax) [toInt p.tf.eax]
  else
    unknownCall p (toInt p.tf.eax) []

/-- A process with the given size, saved `esp` and `eax`, and memory; used for concrete instances. -/
def mkProc (sz esp eax : Nat) (mem : Nat → Nat) : proc :=
  ⟨sz, ⟨eax, esp, []⟩, 1, "init", mem⟩

/-! Concrete memories and tables used in the instances -/

/-- The memory of the C2 counterexample: the word at address 4 is `0x80000001`. -/
def memC2 : Nat → Nat := fun a => if a = 4 then 1 else if a = 7 then 128 else 0

/-- The memory of the C2 instance: the word at address 4 is `0x00000F00 = 3840`. -/
def memArg : Nat → Nat := fun a => if a = 5 then 15 else 0

/-- The memory of the C3 counterexample: every byte is `1` except a zero byte at `2^31`. -/
def memC3 : Nat → Nat := fun a => if a = 2147483648 then 0 else 1

/-- A 20-entry table whose only bound slot is 7, with a handler that returns 42
and stores 5 in the process's saved `eax`. -/
def table20 : List (Option handler) :=
  List.replicate 7 none
    ++ [some (fun p => ((42 : Int), { p with tf := { p.tf with eax := 5 } }))]
    ++ List.replicate 12 none

/-- The memory of the C8 instance: the word at address 4 is `0x00001000 = 4096`. -/
def memS : Nat → Nat := fun a => if a = 5 then 16 else 0

/-- The memory of the C9 instance: bytes `0x78, 0x56, 0x34, 0x12` at `4092 .. 4095`. -/
def memWord : Nat → Nat := fun a =>
  if a = 4092 then 120 else if a = 4093 then 86 else if a = 4094 then 52
  else if a = 4095 then 18 else 0

/-- The kernel state the fetch functions run in: the current process, and one
32-bit location outside the process state (a local variable of the caller). -/
structure Kern where
  p : proc
  cell : Nat

/-- What an output pointer (`int *ip`, `char **pp`) may designate: the caller's
local `cell`, a 32-bit field of the process state (`curproc->sz`,
`curproc->tf->eax`, `curproc->tf->esp`), or the four bytes of process memory
at an address. -/
inductive Ptr where
  | cell : Ptr
  | sz : Ptr
  | eax : Ptr
  | esp : Ptr
  | user (a : Nat) : Ptr

/-- The store `*ptr = v` of a 32-bit value; into process memory it writes the
four bytes at `a .. a+3`, least significant first. -/
def store32 (k : Kern) (ptr : Ptr) (v : Nat) : Kern :=
  match ptr with
  | Ptr.cell => { k with cell := v }
  | Ptr.sz => { k with p := { k.p with sz := v } }
  | Ptr.eax => { k with p := { k.p with tf := { k.p.tf with eax := v } } }
  | Ptr.esp => { k with p := { k.p with tf := { k.p.tf with esp := v } } }
  | Ptr.user a =>
    { k with p := { k.p with mem := (fun x =>
        if x = a then v % 256
        else if x = (a + 1) % 4294967296 then v / 256 % 256
        else if x = (a + 2) % 4294967296 then v / 65536 % 256
        else if x = (a + 3) % 4294967296 then v / 16777216 % 256
        else k.p.mem x) } }

/-- The load `*ptr` of a 32-bit value. -/
def load32 (k : Kern) (ptr : Ptr) : Nat :=
  match ptr with
  | Ptr.cell => k.cell
  | Ptr.sz => k.p.sz
  | Ptr.eax => k.p.tf.eax
  | Ptr.esp => k.p.tf.esp
  | Ptr.user a =>
    loadByte k.p a + 256 * loadByte k.p ((a + 1) % 4294967296)
      + 65536 * loadByte k.p ((a + 2) % 4294967296)
      + 16777216 * loadByte k.p ((a + 3) % 4294967296)

/-- The function `fetchint(uint addr, int *ip)` as a step on the kernel state:
the return value and the state it leaves.  `*ip = *(int*)(addr)` is a store
through `ip`, wherever `ip` points. -/
def fetchintAt (k : Kern) (addr : Nat) (ip : Ptr) : Int × Kern :=
  if addr ≥ k.p.sz ∨ (addr + 4) % 4294967296 > k.p.sz then
    (-1, k)
  else
    (0, store32 k ip (toUint (loadInt k.p addr)))

/-- The function `fetchstr(uint addr, char **pp)` as a step on the kernel state.
After the range test the source stores `*pp = (char*)addr`, then reads
`ep = (char*)curproc->sz` and runs the loop from `s = *pp`, returning `s - *pp`:
all three are read in the state after the store. -/
def fetchstrAt (k : Kern) (addr : Nat) (pp : Ptr) : Int × Kern :=
  if addr ≥ k.p.sz then
    (-1, k)
  else
    ((fetchstrLoop (store32 k pp addr).p (load32 (store32 k pp addr) pp)
        (store32 k pp addr).p.sz (load32 (store32 k pp addr) pp)).1,
      store32 k pp addr)

/-- The function `argint(int n, int *ip)` as a step on the kernel state. -/
def argintAt (k : Kern) (n : Int) (ip : Ptr) : Int × Kern :=
  fetchintAt k (argAddr k.p n) ip

/-- The function `argptr(int n, char **pp, int size)` as a step on the kernel
state.  Its call `argint(n, &i)` stores into its own local `i` only, so the
status and the value of `i` are those of `argint`; the store `*pp = (char*)i`
goes through `pp`. -/
def argptrAt (k : Kern) (n : Int) (pp : Ptr) (size : Int) : Int × Kern :=
  if (argint k.p n 0).ret < 0 then
    (-1, k)
  else if size < 0 ∨ toUint (argint k.p n 0).out ≥ k.p.sz
      ∨ (toUint (argint k.p n 0).out + toUint size) % 4294967296 > k.p.sz then
    (-1, k)
  else
    (0, store32 k pp (toUint (argint k.p n 0).out))

/-- The function `argstr(int n, char **pp)` as a step on the kernel state; its
call `argint(n, &addr)` stores into its own local `addr` only. -/
def argstrAt (k : Kern) (n : Int) (pp : Ptr) : Int × Kern :=
  if (argint k.p n 0).ret < 0 then
    (-1, k)
  else
    fetchstrAt k (toUint (argint k.p n 0).out) pp

/-- The memory of the C11 counterexample: the word at address 0 is `2`. -/
def memTwo : Nat → Nat := fun a => if a = 0 then 2 else 0

/-- What the specification says of `FetchArgString(n)`: get the candidate
address with `FetchArgInt(n)`, fail if that fails, then delegate to
`FetchString` on the address.  The result is the pair (status or length, pointer). -/
def argstrSpec (p : proc) (n : Int) (pp : Nat) : Int × Nat :=
  if (argint p n 0).ret = 0 then
    ((fetchstr p (toUint (argint p n 0).out) pp).ret,
      (fetchstr p (toUint (argint p n 0).out) pp).out)
  else
    (-1, pp)

/-- The memory of the C13 instance: the word at address 4 is `0x80000000`, and
the byte at `0x80000000` is zero. -/
def memNeg : Nat → Nat := fun a => if a = 7 then 128 else 0

/-! Machine-integer facts -/

theorem toUint_lt (x : Int) : toUint x < 4294967296 := by
  unfold toUint; omega

theorem toUint_of_nonneg (x : Int) (h0 : 0 ≤ x) (h1 : x < 4294967296) :
    (toUint x : Int) = x := by
  unfold toUint; omega

theorem toUint_of_neg (x : Int) (h0 : x < 0) (h1 : -2147483648 ≤ x) :
    2147483648 ≤ toUint x := by
  unfold toUint; omega

theorem toInt_lower (u : Nat) : -2147483648 ≤ toInt u := by
  unfold toInt; split_ifs <;> omega

theorem toInt_upper (u : Nat) : toInt u < 2147483648 := by
  unfold toInt; split_ifs <;> omega

theorem toInt_of_lt (u : Nat) (h : u < 2147483648) : toInt u = (u : Int) := by
  unfold toInt; split_ifs <;> omega

theorem toInt_of_ge (u : Nat) (h0 : 2147483648 ≤ u) (h1 : u < 4294967296) :
    toInt u = (u : Int) - 4294967296 := by
  unfold toInt; split_ifs <;> omega

theorem toUint_toInt (u : Nat) : toUint (toInt u) = u % 4294967296 := by
  unfold toUint toInt; split_ifs <;> omega

/-! `fetchint` -/

theorem fetchint_ret_cases (p : proc) (addr : Nat) (ip : Int) :
    (fetchint p addr ip).ret = 0 ∨ (fetchint p addr ip).ret = -1 := by
  unfold fetchint; split_ifs <;> simp

theorem fetchint_ret_zero_iff (p : proc) (addr : Nat) (ip : Int) :
    (fetchint p addr ip).ret = 0 ↔ addr < p.sz ∧ (addr + 4) % 4294967296 ≤ p.sz := by
  unfold fetchint; split_ifs with h
  · simp only [show ((-1 : Int) = 0) = False by simp, false_iff]; omega
  · simp only [true_iff]; omega

theorem fetchint_out_of_ret_zero (p : proc) (addr : Nat) (ip : Int)
    (h : (fetchint p addr ip).ret = 0) : (fetchint p addr ip).out = loadInt p addr := by
  unfold fetchint at h ⊢; split_ifs at h ⊢ with hc
  · simp at h
  · rfl

theorem fetchint_out_range (p : proc) (addr : Nat) (ip : Int)
    (h : (fetchint p addr ip).ret = 0) :
    -2147483648 ≤ (fetchint p addr ip).out ∧ (fetchint p addr ip).out < 2147483648 := by
  rw [fetchint_out_of_ret_zero p addr ip h]
  exact ⟨toInt_lower _, toInt_upper _⟩

/-! `argint` and `argptr` -/

theorem argint_ret_cases (p : proc) (n : Int) (ip : Int) :
    (argint p n ip).ret = 0 ∨ (argint p n ip).ret = -1 :=
  fetchint_ret_cases p (argAddr p n) ip

theorem argint_out_range (p : proc) (n : Int) (ip : Int) (h : (argint p n ip).ret = 0) :
    -2147483648 ≤ (argint p n ip).out ∧ (argint p n ip).out < 2147483648 :=
  fetchint_out_range p (argAddr p n) ip h

theorem argptr_ret_cases (p : proc) (n : Int) (pp : Nat) (size : Int) :
    (argptr p n pp size).ret = 0 ∨ (argptr p n pp size).ret = -1 := by
  unfold argptr; split_ifs <;> simp

/-- Exact success condition of `argptr`, with the 32-bit sum as the code computes it. -/
theorem argptr_ret_zero_iff (p : proc) (n : Int) (pp : Nat) (size : Int) :
    (argptr p n pp size).ret = 0 ↔
      (argint p n 0).ret = 0 ∧ 0 ≤ size ∧ toUint (argint p n 0).out < p.sz
        ∧ (toUint (argint p n 0).out + toUint size) % 4294967296 ≤ p.sz := by
  unfold argptr
  rcases argint_ret_cases p n 0 with h0 | h1
  · have hn : ¬ ((argint p n 0).ret < 0) := by omega
    rw [if_neg hn]
    split_ifs with h3
    · simp only [show ((-1 : Int) = 0) = False by simp, false_iff]; omega
    · simp only [true_iff]; omega
  · have hn : (argint p n 0).ret < 0 := by omega
    rw [if_pos hn]
    simp only [show ((-1 : Int) = 0) = False by simp, false_iff]; omega

theorem argptr_out_of_ret_zero (p : proc) (n : Int) (pp : Nat) (size : Int)
    (h : (argptr p n pp size).ret = 0) :
    (argptr p n pp size).out = toUint (argint p n 0).out := by
  unfold argptr at h ⊢
  split_ifs at h ⊢ with h2 h3
  · simp at h
  · simp at h
  · rfl

/-! The scan of `fetchstr` -/

theorem fetchstrLoop_exit (p : proc) (pp ep s : Nat) (h : ¬ s < ep) :
    fetchstrLoop p pp ep s = (-1, []) := by
  rw [fetchstrLoop, if_neg h]

theorem fetchstrLoop_found (p : proc) (pp ep s : Nat) (h : s < ep) (hz : loadByte p s = 0) :
    fetchstrLoop p pp ep s = (toInt (s - pp), [s]) := by
  rw [fetchstrLoop, if_pos h, if_pos hz]

theorem fetchstrLoop_step (p : proc) (pp ep s : Nat) (h : s < ep) (hz : loadByte p s ≠ 0) :
    fetchstrLoop p pp ep s
      = ((fetchstrLoop p pp ep (s + 1)).1, s :: (fetchstrLoop p pp ep (s + 1)).2) := by
  rw [fetchstrLoop, if_pos h, if_neg hz]

/-- The loop reads at most `ep - s` bytes, all of them at addresses in `[s, ep)`. -/
theorem fetchstrLoop_reads (p : proc) (pp ep : Nat) :
    ∀ (d s : Nat), ep - s = d →
      (fetchstrLoop p pp ep s).2.length ≤ ep - s
        ∧ ∀ r ∈ (fetchstrLoop p pp ep s).2, s ≤ r ∧ r < ep := by
  intro d
  induction d with
  | zero =>
    intro s hd
    rw [fetchstrLoop_exit p pp ep s (by omega)]
    simp
  | succ d ih =>
    intro s hd
    have hlt : s < ep := by omega
    by_cases hz : loadByte p s = 0
    · rw [fetchstrLoop_found p pp ep s hlt hz]
      simp only [List.length_singleton, List.mem_singleton]
      refine ⟨by omega, ?_⟩
      intro r hr
      omega
    · rw [fetchstrLoop_step p pp ep s hlt hz]
      obtain ⟨h1, h2⟩ := ih (s + 1) (by omega)
      simp only [List.length_cons, List.mem_cons]
      refine ⟨by omega, ?_⟩
      intro r hr
      rcases hr with hr | hr
      · omega
      · have := h2 r hr
        omega

/-- The loop reads consecutive addresses starting at `s`. -/
theorem fetchstrLoop_reads_consecutive (p : proc) (pp ep : Nat) :
    ∀ (d s : Nat), ep - s = d →
      (fetchstrLoop p pp ep s).2 = List.range' s (fetchstrLoop p pp ep s).2.length := by
  intro d
  induction d with
  | zero =>
    intro s hd
    rw [fetchstrLoop_exit p pp ep s (by omega)]
    rfl
  | succ d ih =>
    intro s hd
    have hlt : s < ep := by omega
    by_cases hz : loadByte p s = 0
    · rw [fetchstrLoop_found p pp ep s hlt hz]
      rfl
    · rw [fetchstrLoop_step p pp ep s hlt hz]
      simp only [List.length_cons]
      rw [List.range'_succ, ← ih (s + 1) (by omega)]

/-- Without a zero byte in `[s, ep)` the loop falls through and `-1` is returned. -/
theorem fetchstrLoop_no_zero (p : proc) (pp ep : Nat) :
    ∀ (d s : Nat), ep - s = d → (∀ x, s ≤ x → x < ep → loadByte p x ≠ 0) →
      (fetchstrLoop p pp ep s).1 = -1 := by
  intro d
  induction d with
  | zero =>
    intro s hd _
    rw [fetchstrLoop_exit p pp ep s (by omega)]
  | succ d ih =>
    intro s hd hnz
    have hlt : s < ep := by omega
    rw [fetchstrLoop_step p pp ep s hlt (hnz s (le_refl s) hlt)]
    exact ih (s + 1) (by omega) (fun x hx hx2 => hnz x (by omega) hx2)

/-- With the first zero byte of `[s, ep)` at `z`, the loop returns `z - pp` as an
`int` and has read exactly the addresses `s, s+1, ..., z`. -/
theorem fetchstrLoop_first_zero (p : proc) (pp ep z : Nat) (hz : z < ep)
    (hzero : loadByte p z = 0) :
    ∀ (d s : Nat), z - s = d → s ≤ z → (∀ x, s ≤ x → x < z → loadByte p x ≠ 0) →
      fetchstrLoop p pp ep s = (toInt (z - pp), List.range' s (z - s + 1)) := by
  intro d
  induction d with
  | zero =>
    intro s hd hsz _
    have hs : s = z := by omega
    subst hs
    rw [fetchstrLoop_found p pp ep s hz hzero]
    simp [List.range']
  | succ d ih =>
    intro s hd hsz hnz
    have hlt : s < z := by omega
    rw [fetchstrLoop_step p pp ep s (by omega) (hnz s (le_refl s) hlt)]
    rw [ih (s + 1) (by omega) (by omega) (fun x hx hx2 => hnz x (by omega) hx2)]
    have : z - s + 1 = (z - (s + 1) + 1) + 1 := by omega
    rw [this, List.range'_succ s (z - (s + 1) + 1)]

/-- Either `[s, ep)` holds no zero byte, or it has a first one. -/
theorem first_zero_or_none (p : proc) (s ep : Nat) :
    (∀ x, s ≤ x → x < ep → loadByte p x ≠ 0)
      ∨ ∃ z, s ≤ z ∧ z < ep ∧ loadByte p z = 0 ∧ ∀ x, s ≤ x → x < z → loadByte p x ≠ 0 := by
  by_cases h : ∃ z, s ≤ z ∧ z < ep ∧ loadByte p z = 0
  · right
    refine ⟨Nat.find h, (Nat.find_spec h).1, (Nat.find_spec h).2.1, (Nat.find_spec h).2.2, ?_⟩
    intro x hx hxz hx0
    exact Nat.find_min h hxz ⟨hx, lt_trans hxz (Nat.find_spec h).2.1, hx0⟩
  · left
    intro x hx hx2 hx0
    exact h ⟨x, hx, hx2, hx0⟩

theorem fetchstr_in_range (p : proc) (a pp : Nat) (ha : a < p.sz) :
    fetchstr p a pp
      = ⟨(fetchstrLoop p a p.sz a).1, a, (fetchstrLoop p a p.sz a).2⟩ := by
  unfold fetchstr
  rw [if_neg (by omega)]

theorem fetchstr_out_of_range (p : proc) (a pp : Nat) (ha : p.sz ≤ a) :
    fetchstr p a pp = ⟨-1, pp, []⟩ := by
  unfold fetchstr
  rw [if_pos ha]

/-- Result of `fetchstr` when the first zero byte of `[a, S)` is at `z`. -/
theorem fetchstr_first_zero (p : proc) (a pp z : Nat) (haz : a ≤ z) (hz : z < p.sz)
    (hzero : loadByte p z = 0) (hnz : ∀ x, a ≤ x → x < z → loadByte p x ≠ 0) :
    fetchstr p a pp = ⟨toInt (z - a), a, List.range' a (z - a + 1)⟩ := by
  rw [fetchstr_in_range p a pp (by omega),
    fetchstrLoop_first_zero p a p.sz z hz hzero (z - a) a rfl haz hnz]

/-- Result of `fetchstr` when `[a, S)` holds no zero byte. -/
theorem fetchstr_no_zero (p : proc) (a pp : Nat)
    (hnz : ∀ x, a ≤ x → x < p.sz → loadByte p x ≠ 0) : (fetchstr p a pp).ret = -1 := by
  by_cases ha : a < p.sz
  · rw [fetchstr_in_range p a pp ha]
    exact fetchstrLoop_no_zero p a p.sz (p.sz - a) a rfl hnz
  · rw [fetchstr_out_of_range p a pp (by omega)]

/-- C1 (as stated, refuted): with address-space size `S = 0xFFFFFFFF` the call
`fetchint(0xFFFFFFFC)` returns `0`, although the true sum `0xFFFFFFFC + 4`
exceeds `S` and the address is within 4 of `UINT_MAX`: the 32-bit sum wraps to `0`. -/
theorem C1_fetchint_wraps_near_uint_max :
    (fetchint (mkProc 4294967295 0 0 (fun _ => 0)) 4294967292 0).ret = 0
      ∧ 4294967292 < 4294967296
      ∧ (mkProc 4294967295 0 0 (fun _ => 0)).sz < 4294967296
      ∧ ¬ (4294967292 < (mkProc 4294967295 0 0 (fun _ => 0)).sz
            ∧ 4294967292 + 4 ≤ (mkProc 4294967295 0 0 (fun _ => 0)).sz) := by
  decide

/-- C1 (amended): for every 32-bit address `a` and every address-space size
`S ≤ 2^32 - 4`, `fetchint(a)` returns `0` if and only if `a < S` and `a + 4 ≤ S`
with the true sum; in every other case it returns `-1`; in particular no `a`
with `a + 4 ≥ UINT_MAX` succeeds. -/
theorem C1_fetchint_succeeds_iff (p : proc) (a : Nat) (ip : Int)
    (ha : a < 4294967296) (hS : p.sz + 4 ≤ 4294967296) :
    ((fetchint p a ip).ret = 0 ↔ a < p.sz ∧ a + 4 ≤ p.sz)
      ∧ (¬ (a < p.sz ∧ a + 4 ≤ p.sz) → (fetchint p a ip).ret = -1)
      ∧ (4294967295 ≤ a + 4 → (fetchint p a ip).ret = -1) := by
  have key : (fetchint p a ip).ret = 0 ↔ a < p.sz ∧ a + 4 ≤ p.sz := by
    rw [fetchint_ret_zero_iff]; omega
  refine ⟨key, ?_, ?_⟩
  · intro h
    rcases fetchint_ret_cases p a ip with h0 | h1
    · exact absurd (key.mp h0) h
    · exact h1
  · intro h
    rcases fetchint_ret_cases p a ip with h0 | h1
    · have := key.mp h0; omega
    · exact h1

/-- Instance of C1 at `S = 4096`: `fetchint(4092)` succeeds, and the hypotheses hold there. -/
theorem C1_fetchint_succeeds_iff_witness :
    4092 < 4294967296 ∧ (mkProc 4096 0 0 (fun _ => 1)).sz + 4 ≤ 4294967296
      ∧ (fetchint (mkProc 4096 0 0 (fun _ => 1)) 4092 0).ret = 0 :=
  ⟨by decide, by decide,
    (C1_fetchint_succeeds_iff (mkProc 4096 0 0 (fun _ => 1)) 4092 0 (by decide) (by decide)).1.mpr
      (by decide)⟩

/-- C2 (as stated, refuted): with `S = 0x80000002`, `esp = 0` and the argument
word `i = 0x80000001` (negative as an `int`), `argptr(0, 0x7FFFFFFF)` returns `0`
with pointer `0x80000001`, although the true sum `(uint)i + size = 2^32` exceeds
`S` and the byte address `(uint)i + 1` is not below `S`. -/
theorem C2_argptr_sum_wraps :
    (argptr (mkProc 2147483650 0 0 memC2) 0 0 2147483647).ret = 0
      ∧ (argptr (mkProc 2147483650 0 0 memC2) 0 0 2147483647).out = 2147483649
      ∧ (argint (mkProc 2147483650 0 0 memC2) 0 0).ret = 0
      ∧ (argint (mkProc 2147483650 0 0 memC2) 0 0).out = -2147483647
      ∧ ¬ ((toUint (argint (mkProc 2147483650 0 0 memC2) 0 0).out : Int) + 2147483647
            ≤ (mkProc 2147483650 0 0 memC2).sz)
      ∧ ¬ (toUint (argint (mkProc 2147483650 0 0 memC2) 0 0).out + 1
            < (mkProc 2147483650 0 0 memC2).sz) := by
  decide

/-- C2 (amended): for every address-space size `S ≤ 0x80000000`, every saved
stack pointer, argument index `n` and `int` size: `argptr(n, size)` returns `0`
if and only if `argint(n)` succeeds with value `i`, `size ≥ 0`, `(uint)i < S`
and `(uint)i + size ≤ S` with the true sum, and returns `-1` otherwise; on
success the pointer stored is `(uint)i`, every byte address `(uint)i + j` with
`0 ≤ j < size` is below `S`, and a fetched `i` that is negative is rejected. -/
theorem C2_argptr_succeeds_iff (p : proc) (n : Int) (pp : Nat) (size : Int)
    (hS : p.sz ≤ 2147483648) (hsize : size < 2147483648) :
    ((argptr p n pp size).ret = 0 ↔
        (argint p n 0).ret = 0 ∧ 0 ≤ size ∧ toUint (argint p n 0).out < p.sz
          ∧ (toUint (argint p n 0).out : Int) + size ≤ p.sz)
      ∧ ((argptr p n pp size).ret = 0 ∨ (argptr p n pp size).ret = -1)
      ∧ ((argptr p n pp size).ret = 0 →
          (argptr p n pp size).out = toUint (argint p n 0).out)
      ∧ ((argptr p n pp size).ret = 0 →
          ∀ j : Nat, (j : Int) < size → toUint (argint p n 0).out + j < p.sz)
      ∧ ((argint p n 0).ret = 0 → (argint p n 0).out < 0 →
          (argptr p n pp size).ret = -1) := by
  have key : (argptr p n pp size).ret = 0 ↔
        (argint p n 0).ret = 0 ∧ 0 ≤ size ∧ toUint (argint p n 0).out < p.sz
          ∧ (toUint (argint p n 0).out : Int) + size ≤ p.sz := by
    rw [argptr_ret_zero_iff]
    constructor
    · rintro ⟨h1, h2, h3, h4⟩
      have := toUint_of_nonneg size h2 (by omega)
      refine ⟨h1, h2, h3, ?_⟩
      omega
    · rintro ⟨h1, h2, h3, h4⟩
      have := toUint_of_nonneg size h2 (by omega)
      refine ⟨h1, h2, h3, ?_⟩
      omega
  refine ⟨key, argptr_ret_cases p n pp size, argptr_out_of_ret_zero p n pp size, ?_, ?_⟩
  · intro h j hj
    have := key.mp h
    omega
  · intro h0 hneg
    rcases argptr_ret_cases p n pp size with h | h
    · have h3 := (key.mp h).2.2.1
      have := toUint_of_neg _ hneg (argint_out_range p n 0 h0).1
      omega
    · exact h

/-- Instance of C2 at `S = 4096`, `esp = 0`: the first argument is `3840`, and
`argptr(0, 256)` succeeds with pointer `3840`. -/
theorem C2_argptr_succeeds_iff_witness :
    (mkProc 4096 0 0 memArg).sz ≤ 2147483648 ∧ (256 : Int) < 2147483648
      ∧ (argptr (mkProc 4096 0 0 memArg) 0 0 256).ret = 0
      ∧ (argptr (mkProc 4096 0 0 memArg) 0 0 256).out = 3840 :=
  ⟨by decide, by decide,
    (C2_argptr_succeeds_iff (mkProc 4096 0 0 memArg) 0 0 256 (by decide) (by decide)).1.mpr
      (by decide),
    by decide⟩

theorem memC3_nonzero (x : Nat) (hx : x < 2147483648) :
    loadByte (mkProc 2147483649 0 0 memC3) x ≠ 0 := by
  have h : x ≠ 2147483648 := by omega
  simp [loadByte, mkProc, memC3, h]

/-- C3 (as stated, refuted): with `S = 2^31 + 1`, `a = 0` and the first zero byte
at offset `k = 2^31`, the right-hand side of the claim holds for `k`, but
`fetchstr` returns `-2^31`, not `k`: the length does not fit the `int` result. -/
theorem C3_fetchstr_length_wraps :
    (0 < (mkProc 2147483649 0 0 memC3).sz ∧ (mkProc 2147483649 0 0 memC3).sz < 4294967296)
      ∧ (0 + 2147483648 < (mkProc 2147483649 0 0 memC3).sz
          ∧ loadByte (mkProc 2147483649 0 0 memC3) (0 + 2147483648) = 0
          ∧ ∀ j, j < 2147483648 → loadByte (mkProc 2147483649 0 0 memC3) (0 + j) ≠ 0)
      ∧ (fetchstr (mkProc 2147483649 0 0 memC3) 0 0).ret = -2147483648
      ∧ ¬ ((fetchstr (mkProc 2147483649 0 0 memC3) 0 0).ret = ((2147483648 : Nat) : Int)
            ∧ (fetchstr (mkProc 2147483649 0 0 memC3) 0 0).out = 0) := by
  have hz : loadByte (mkProc 2147483649 0 0 memC3) 2147483648 = 0 := by decide
  have hr : fetchstr (mkProc 2147483649 0 0 memC3) 0 0
      = ⟨toInt (2147483648 - 0), 0, List.range' 0 (2147483648 - 0 + 1)⟩ :=
    fetchstr_first_zero (mkProc 2147483649 0 0 memC3) 0 0 2147483648 (by decide) (by decide) hz
      (fun x _ hx => memC3_nonzero x hx)
  have hv : toInt (2147483648 - 0) = -2147483648 := by decide
  refine ⟨by decide, ⟨by decide, hz, ?_⟩, ?_, ?_⟩
  · intro j hj
    rw [Nat.zero_add]
    exact memC3_nonzero j hj
  · rw [hr]; exact hv
  · rw [hr]
    intro h
    have h1 := h.1
    simp only [hv] at h1
    omega

/-- C3 (amended): for every address-space size `S`, memory and address `a < S`,
and every length `k < 2^31` (one that fits the `int` result): `fetchstr(a)`
returns `k` with `*pp = a` if and only if `a + k < S`, the byte at `a + k` is
zero and no byte in `[a, a+k)` is zero; it returns `-1` if and only if no byte
in `[a, S)` is zero.  In particular a zero byte at `a` gives length `0`, and a
non-zero byte at `a = S - 1` gives `-1`. -/
theorem C3_fetchstr_spec (p : proc) (a pp k : Nat)
    (hS : p.sz < 4294967296) (ha : a < p.sz) (hk : k < 2147483648) :
    (((fetchstr p a pp).ret = (k : Int) ∧ (fetchstr p a pp).out = a) ↔
        (a + k < p.sz ∧ loadByte p (a + k) = 0 ∧ ∀ j, j < k → loadByte p (a + j) ≠ 0))
      ∧ ((fetchstr p a pp).ret = -1 ↔ ∀ x, a ≤ x → x < p.sz → loadByte p x ≠ 0)
      ∧ (loadByte p a = 0 → (fetchstr p a pp).ret = 0 ∧ (fetchstr p a pp).out = a)
      ∧ (a + 1 = p.sz → loadByte p a ≠ 0 → (fetchstr p a pp).ret = -1) := by
  have hfail : (fetchstr p a pp).ret = -1 ↔ ∀ x, a ≤ x → x < p.sz → loadByte p x ≠ 0 := by
    constructor
    · intro hret
      rcases first_zero_or_none p a p.sz with hnone | ⟨z, haz, hz, hzero, hnz⟩
      · exact hnone
      · rw [fetchstr_first_zero p a pp z haz hz hzero hnz] at hret
        simp only at hret
        by_cases hlt : z - a < 2147483648
        · rw [toInt_of_lt _ hlt] at hret; omega
        · rw [toInt_of_ge _ (by omega) (by omega)] at hret; omega
    · exact fetchstr_no_zero p a pp
  have hsucc : a + k < p.sz → loadByte p (a + k) = 0 → (∀ j, j < k → loadByte p (a + j) ≠ 0) →
      (fetchstr p a pp).ret = (k : Int) ∧ (fetchstr p a pp).out = a := by
    intro h1 h2 h3
    have hnz : ∀ x, a ≤ x → x < a + k → loadByte p x ≠ 0 := by
      intro x hx hx2
      have := h3 (x - a) (by omega)
      rwa [show a + (x - a) = x by omega] at this
    rw [fetchstr_first_zero p a pp (a + k) (by omega) h1 h2 hnz]
    simp only [and_true]
    rw [show a + k - a = k by omega, toInt_of_lt k hk]
  refine ⟨⟨?_, fun h => hsucc h.1 h.2.1 h.2.2⟩, hfail, ?_, ?_⟩
  · rintro ⟨hret, _⟩
    rcases first_zero_or_none p a p.sz with hnone | ⟨z, haz, hz, hzero, hnz⟩
    · have := fetchstr_no_zero p a pp hnone
      omega
    · rw [fetchstr_first_zero p a pp z haz hz hzero hnz] at hret
      simp only at hret
      have hzk : z = a + k := by
        by_cases hlt : z - a < 2147483648
        · rw [toInt_of_lt _ hlt] at hret; omega
        · rw [toInt_of_ge _ (by omega) (by omega)] at hret; omega
      subst hzk
      exact ⟨hz, hzero, fun j hj => hnz (a + j) (by omega) (by omega)⟩
  · intro h0
    rw [fetchstr_first_zero p a pp a (le_refl a) ha h0 (fun x hx hx2 => by omega)]
    simp only [Nat.sub_self, and_true]
    decide
  · intro hlast hb
    apply hfail.mpr
    intro x hx hx2
    have : x = a := by omega
    rw [this]; exact hb

/-- Instance of C3 at `S = 4096`, `a = 4095`: with a zero byte at 4095 the call
returns length `0`; with a non-zero byte there it returns `-1`. -/
theorem C3_fetchstr_spec_witness :
    ((mkProc 4096 0 0 (fun _ => 0)).sz < 4294967296 ∧ 4095 < (mkProc 4096 0 0 (fun _ => 0)).sz
        ∧ (0 : Nat) < 2147483648)
      ∧ ((fetchstr (mkProc 4096 0 0 (fun _ => 0)) 4095 7).ret = 0
          ∧ (fetchstr (mkProc 4096 0 0 (fun _ => 0)) 4095 7).out = 4095)
      ∧ (fetchstr (mkProc 4096 0 0 (fun _ => 1)) 4095 7).ret = -1 :=
  ⟨⟨by decide, by decide, by decide⟩,
    (C3_fetchstr_spec (mkProc 4096 0 0 (fun _ => 0)) 4095 7 0 (by decide) (by decide)
      (by decide)).2.2.1 (by decide),
    (C3_fetchstr_spec (mkProc 4096 0 0 (fun _ => 1)) 4095 7 0 (by decide) (by decide)
      (by decide)).2.2.2 (by decide) (by decide)⟩

/-- C4 (as stated, refuted): with `esp = 0xFFFFFFFC` and `n = 0` the true sum
`esp + 4 + 4n` is `2^32 > UINT_MAX`, yet `argint(0)` returns `0`: it fetched the
word at the wrapped address `0`. -/
theorem C4_argint_wrapped_slot_succeeds :
    4294967295 < (mkProc 4096 4294967292 0 (fun _ => 0)).tf.esp + 4 + 4 * 0
      ∧ (mkProc 4096 4294967292 0 (fun _ => 0)).tf.esp < 4294967296
      ∧ (argint (mkProc 4096 4294967292 0 (fun _ => 0)) 0 0).ret = 0
      ∧ (argint (mkProc 4096 4294967292 0 (fun _ => 0)) 0 0).reads = [0, 1, 2, 3] := by
  decide

/-- C4 (amended): for every saved stack pointer, every argument index `n ≥ 0`
and every size, `argint(n)` returns exactly what `fetchint` returns at the slot
address `(esp + 4 + 4n) mod 2^32`; when the true sum `esp + 4 + 4n` does not
exceed `UINT_MAX` this is `fetchint(esp + 4*(1+n))`.  An overflowing address
computation is not detected by itself. -/
theorem C4_argint_delegates (p : proc) (n : Int) (ip : Int) (hn : 0 ≤ n) :
    argint p n ip = fetchint p ((p.tf.esp + 4 * (1 + n.toNat)) % 4294967296) ip
      ∧ (p.tf.esp + 4 + 4 * n.toNat ≤ 4294967295 →
          argint p n ip = fetchint p (p.tf.esp + 4 * (1 + n.toNat)) ip) := by
  have haddr : argAddr p n = (p.tf.esp + 4 * (1 + n.toNat)) % 4294967296 := by
    unfold argAddr toUint; omega
  refine ⟨?_, ?_⟩
  · unfold argint; rw [haddr]
  · intro hsum
    unfold argint
    rw [haddr, Nat.mod_eq_of_lt (by omega)]

/-- Instance of C4 at `esp = 4000`, `n = 2`, `S = 4096`: the slot address is `4012`. -/
theorem C4_argint_delegates_witness :
    (0 : Int) ≤ 2 ∧ (mkProc 4096 4000 0 (fun _ => 0)).tf.esp + 4 + 4 * (2 : Int).toNat ≤ 4294967295
      ∧ argint (mkProc 4096 4000 0 (fun _ => 0)) 2 0
          = fetchint (mkProc 4096 4000 0 (fun _ => 0))
              ((mkProc 4096 4000 0 (fun _ => 0)).tf.esp + 4 * (1 + (2 : Int).toNat)) 0
      ∧ (argint (mkProc 4096 4000 0 (fun _ => 0)) 2 0).reads = [4012, 4013, 4014, 4015] :=
  ⟨by decide, by decide,
    (C4_argint_delegates (mkProc 4096 4000 0 (fun _ => 0)) 2 0 (by decide)).2 (by decide),
    by decide⟩

/-! `syscall` -/

theorem unknownCall_spec (p : proc) (num : Int) (l : List Int) :
    (unknownCall p num l).invoked = []
      ∧ (unknownCall p num l).console = [⟨p.pid, p.name, num⟩]
      ∧ (unknownCall p num l).p.tf.eax = 4294967295
      ∧ toInt (unknownCall p num l).p.tf.eax = -1 := by
  refine ⟨rfl, rfl, ?_, ?_⟩
  · show toUint (-1) = 4294967295
    decide
  · show toInt (toUint (-1)) = -1
    decide

/-- C5: for every handler table and every saved call number `num` (the `int`
read from `eax`) with `num ≤ 0`, or `num ≥` table size, or an unbound slot at
`num`: `syscall()` invokes no handler, writes exactly one console line carrying
the pid, the name and `num`, and leaves `eax` equal to `-1` (`0xFFFFFFFF`). -/
theorem C5_syscall_unknown (syscalls : List (Option handler)) (p : proc)
    (h : toInt p.tf.eax ≤ 0 ∨ (syscalls.length : Int) ≤ toInt p.tf.eax
          ∨ syscalls.get? (toInt p.tf.eax).toNat = some none) :
    (syscall syscalls p).invoked = []
      ∧ (syscall syscalls p).console = [⟨p.pid, p.name, toInt p.tf.eax⟩]
      ∧ (syscall syscalls p).p.tf.eax = 4294967295
      ∧ toInt (syscall syscalls p).p.tf.eax = -1 := by
  unfold syscall
  split_ifs with hc
  · obtain ⟨hpos, hlt⟩ := hc
    have hu := toUint_of_nonneg (toInt p.tf.eax) (by omega)
      (by have := toInt_upper p.tf.eax; omega)
    rcases h with h | h | h
    · omega
    · omega
    · rw [h]
      exact unknownCall_spec p _ _
  · exact unknownCall_spec p _ _

/-- Instances of C5 with the 20-entry table: call numbers `0`, `-1`
(`eax = 0xFFFFFFFF`), `99`, and the unbound slot `3`. -/
theorem C5_syscall_unknown_witness :
    (toInt (mkProc 4096 0 99 (fun _ => 0)).tf.eax = 99 ∧ table20.length = 20)
      ∧ ((syscall table20 (mkProc 4096 0 99 (fun _ => 0))).console = [⟨1, "init", 99⟩]
          ∧ (syscall table20 (mkProc 4096 0 99 (fun _ => 0))).invoked = []
          ∧ toInt (syscall table20 (mkProc 4096 0 99 (fun _ => 0))).p.tf.eax = -1)
      ∧ ((syscall table20 (mkProc 4096 0 0 (fun _ => 0))).console = [⟨1, "init", 0⟩]
          ∧ toInt (syscall table20 (mkProc 4096 0 0 (fun _ => 0))).p.tf.eax = -1)
      ∧ ((syscall table20 (mkProc 4096 0 4294967295 (fun _ => 0))).console = [⟨1, "init", -1⟩]
          ∧ toInt (syscall table20 (mkProc 4096 0 4294967295 (fun _ => 0))).p.tf.eax = -1)
      ∧ ((syscall table20 (mkProc 4096 0 3 (fun _ => 0))).console = [⟨1, "init", 3⟩]
          ∧ toInt (syscall table20 (mkProc 4096 0 3 (fun _ => 0))).p.tf.eax = -1) :=
  ⟨⟨by decide, by decide⟩,
    ⟨(C5_syscall_unknown table20 (mkProc 4096 0 99 (fun _ => 0))
        (Or.inr (Or.inl (by decide)))).2.1,
      (C5_syscall_unknown table20 (mkProc 4096 0 99 (fun _ => 0))
        (Or.inr (Or.inl (by decide)))).1,
      (C5_syscall_unknown table20 (mkProc 4096 0 99 (fun _ => 0))
        (Or.inr (Or.inl (by decide)))).2.2.2⟩,
    ⟨(C5_syscall_unknown table20 (mkProc 4096 0 0 (fun _ => 0)) (Or.inl (by decide))).2.1,
      (C5_syscall_unknown table20 (mkProc 4096 0 0 (fun _ => 0)) (Or.inl (by decide))).2.2.2⟩,
    ⟨(C5_syscall_unknown table20 (mkProc 4096 0 4294967295 (fun _ => 0))
        (Or.inl (by decide))).2.1,
      (C5_syscall_unknown table20 (mkProc 4096 0 4294967295 (fun _ => 0))
        (Or.inl (by decide))).2.2.2⟩,
    ⟨(C5_syscall_unknown table20 (mkProc 4096 0 3 (fun _ => 0))
        (Or.inr (Or.inr rfl))).2.1,
      (C5_syscall_unknown table20 (mkProc 4096 0 3 (fun _ => 0))
        (Or.inr (Or.inr rfl))).2.2.2⟩⟩

/-- C6: for every handler table and every call number `k` with
`1 ≤ k <` table size whose slot holds a handler `h`: `syscall()` invokes the
handler at index `k` once and no other, writes no console line, and leaves in
`eax` the 32-bit return value of `h`, whatever state `h` left (also when `h`
itself changed the saved `eax`). -/
theorem C6_syscall_bound (syscalls : List (Option handler)) (p : proc) (k : Nat) (h : handler)
    (hk1 : 1 ≤ k) (hk2 : k < syscalls.length) (hnum : toInt p.tf.eax = (k : Int))
    (hb : syscalls.get? k = some (some h)) :
    (syscall syscalls p).invoked = [k]
      ∧ (syscall syscalls p).console = []
      ∧ (syscall syscalls p).p.tf.eax = toUint (h p).1
      ∧ (-2147483648 ≤ (h p).1 → (h p).1 < 2147483648 →
          toInt (syscall syscalls p).p.tf.eax = (h p).1) := by
  have hk3 : (k : Int) < 2147483648 := by have := toInt_upper p.tf.eax; omega
  have hu := toUint_of_nonneg (k : Int) (by omega) (by omega)
  have hcond : 0 < toInt p.tf.eax ∧ toUint (toInt p.tf.eax) < syscalls.length := by
    rw [hnum]; constructor <;> omega
  have hidx : (toInt p.tf.eax).toNat = k := by rw [hnum]; omega
  unfold syscall
  rw [if_pos hcond, hidx, hb]
  refine ⟨rfl, rfl, rfl, ?_⟩
  intro hlo hhi
  show toInt (toUint (h p).1) = (h p).1
  unfold toInt toUint
  split_ifs <;> omega

/-- Instance of C6: 20-entry table, slot 7 bound to a handler returning 42, call number 7. -/
theorem C6_syscall_bound_witness :
    ((1 : Nat) ≤ 7 ∧ 7 < table20.length ∧ toInt (mkProc 4096 0 7 (fun _ => 0)).tf.eax = 7)
      ∧ (syscall table20 (mkProc 4096 0 7 (fun _ => 0))).invoked = [7]
      ∧ (syscall table20 (mkProc 4096 0 7 (fun _ => 0))).console = []
      ∧ (syscall table20 (mkProc 4096 0 7 (fun _ => 0))).p.tf.eax = 42 :=
  ⟨⟨by decide, by decide, by decide⟩,
    (C6_syscall_bound table20 (mkProc 4096 0 7 (fun _ => 0)) 7
      (fun p => ((42 : Int), { p with tf := { p.tf with eax := 5 } }))
      (by decide) (by decide) (by decide) rfl).1,
    (C6_syscall_bound table20 (mkProc 4096 0 7 (fun _ => 0)) 7
      (fun p => ((42 : Int), { p with tf := { p.tf with eax := 5 } }))
      (by decide) (by decide) (by decide) rfl).2.1,
    (C6_syscall_bound table20 (mkProc 4096 0 7 (fun _ => 0)) 7
      (fun p => ((42 : Int), { p with tf := { p.tf with eax := 5 } }))
      (by decide) (by decide) (by decide) rfl).2.2.1⟩

/-! Rejections -/

/-- C7: for every process state, argument index `n` and every `size < 0`,
`argptr(n, size)` returns `-1`, whether or not `argint` succeeds and whatever
value was fetched. -/
theorem C7_argptr_negative_size (p : proc) (n : Int) (pp : Nat) (size : Int) (h : size < 0) :
    (argptr p n pp size).ret = -1 := by
  unfold argptr
  split_ifs with h1 h2
  · rfl
  · rfl
  · exact absurd (Or.inl h) h2

/-- Instance of C7: `argint(0)` succeeds with the in-range value `3840`, and
`argptr(0, -1)` still returns `-1`. -/
theorem C7_argptr_negative_size_witness :
    (-1 : Int) < 0 ∧ (argint (mkProc 4096 0 0 memArg) 0 0).ret = 0
      ∧ (argint (mkProc 4096 0 0 memArg) 0 0).out = 3840
      ∧ (argptr (mkProc 4096 0 0 memArg) 0 9 (-1)).ret = -1 :=
  ⟨by decide, by decide, by decide,
    C7_argptr_negative_size (mkProc 4096 0 0 memArg) 0 9 (-1) (by decide)⟩

/-- C8: an address equal to the address-space size `S` is rejected, for every
`S`: `fetchint(S)` and `fetchstr(S)` return `-1`, and `argptr` returns `-1`
whenever the fetched candidate address `(uint)i` equals `S`, for every
requested size, `0` included. -/
theorem C8_address_eq_size_rejected (p : proc) (ip : Int) (pp : Nat) (n : Int) (size : Int) :
    (fetchint p p.sz ip).ret = -1
      ∧ (fetchstr p p.sz pp).ret = -1
      ∧ (toUint (argint p n 0).out = p.sz → (argptr p n pp size).ret = -1) := by
  refine ⟨?_, ?_, ?_⟩
  · unfold fetchint
    rw [if_pos (Or.inl (le_refl p.sz))]
  · rw [fetchstr_out_of_range p p.sz pp (le_refl p.sz)]
  · intro hi
    rcases argptr_ret_cases p n pp size with h | h
    · have := ((argptr_ret_zero_iff p n pp size).mp h).2.2.1
      omega
    · exact h

/-- Instance of C8 at `S = 4096`: the first argument word is `4096 = S`, and
`argptr(0, 0)` is rejected although `argint(0)` succeeded. -/
theorem C8_address_eq_size_rejected_witness :
    (argint (mkProc 4096 0 0 memS) 0 0).ret = 0
      ∧ toUint (argint (mkProc 4096 0 0 memS) 0 0).out = (mkProc 4096 0 0 memS).sz
      ∧ (argptr (mkProc 4096 0 0 memS) 0 9 0).ret = -1 :=
  ⟨by decide, by decide,
    (C8_address_eq_size_rejected (mkProc 4096 0 0 memS) 0 9 0 0).2.2 (by decide)⟩

/-! The value read by `fetchint` -/

/-- C9 (as stated, refuted): with `S = 0xFFFFFFFF`, `fetchint(0xFFFFFFFC)`
succeeds, and the fourth byte it reads, at `0xFFFFFFFF`, is not below `S`. -/
theorem C9_fetchint_reads_at_size :
    (fetchint (mkProc 4294967295 0 0 (fun _ => 0)) 4294967292 0).ret = 0
      ∧ (fetchint (mkProc 4294967295 0 0 (fun _ => 0)) 4294967292 0).reads
          = [4294967292, 4294967293, 4294967294, 4294967295]
      ∧ ¬ (4294967292 + 3 < (mkProc 4294967295 0 0 (fun _ => 0)).sz) := by
  decide

/-- C9 (amended): for every address-space size `S ≤ 2^32 - 4`, whenever
`fetchint(a)` returns `0`, the value stored through `ip` is the `int` formed
from the four bytes at `a, a+1, a+2, a+3`, least significant first, these four
are exactly the bytes read, and all four addresses are below `S`. -/
theorem C9_fetchint_value (p : proc) (a : Nat) (ip : Int)
    (hS : p.sz + 4 ≤ 4294967296) (h : (fetchint p a ip).ret = 0) :
    (fetchint p a ip).out
        = toInt (loadByte p a + 256 * loadByte p (a + 1) + 65536 * loadByte p (a + 2)
            + 16777216 * loadByte p (a + 3))
      ∧ (fetchint p a ip).reads = [a, a + 1, a + 2, a + 3]
      ∧ a + 3 < p.sz := by
  have hr := (fetchint_ret_zero_iff p a ip).mp h
  have h1 : (a + 1) % 4294967296 = a + 1 := Nat.mod_eq_of_lt (by omega)
  have h2 : (a + 2) % 4294967296 = a + 2 := Nat.mod_eq_of_lt (by omega)
  have h3 : (a + 3) % 4294967296 = a + 3 := Nat.mod_eq_of_lt (by omega)
  refine ⟨?_, ?_, by omega⟩
  · rw [fetchint_out_of_ret_zero p a ip h]
    unfold loadInt
    rw [h1, h2, h3]
  · unfold fetchint
    rw [if_neg (by omega), h1, h2, h3]

/-- Instance of C9 at `S = 4096`: `fetchint(4092)` succeeds, reads exactly the
bytes `[4092, 4096)` and stores `0x12345678`; `fetchint(4094)` fails. -/
theorem C9_fetchint_value_witness :
    ((mkProc 4096 0 0 memWord).sz + 4 ≤ 4294967296
        ∧ (fetchint (mkProc 4096 0 0 memWord) 4092 0).ret = 0)
      ∧ (fetchint (mkProc 4096 0 0 memWord) 4092 0).reads = [4092, 4093, 4094, 4095]
      ∧ (fetchint (mkProc 4096 0 0 memWord) 4092 0).out = 305419896
      ∧ (fetchint (mkProc 4096 0 0 memWord) 4094 0).ret = -1 :=
  ⟨⟨by decide, by decide⟩,
    (C9_fetchint_value (mkProc 4096 0 0 memWord) 4092 0 (by decide) (by decide)).2.1,
    by decide, by decide⟩

/-! The scan bound of `fetchstr` -/

/-- C10: for every address `a`, size `S` and memory, the scan of `fetchstr(a)`
(a total function: the loop runs on the decreasing measure `S - s`) examines at
most `S - a` bytes, the bytes examined are consecutive from `a`, every one has
its address in `[a, S)`, and nothing is read when `a ≥ S`. -/
theorem C10_fetchstr_scan_bounded (p : proc) (a pp : Nat) :
    (fetchstr p a pp).reads.length ≤ p.sz - a
      ∧ (fetchstr p a pp).reads = List.range' a (fetchstr p a pp).reads.length
      ∧ (∀ r ∈ (fetchstr p a pp).reads, a ≤ r ∧ r < p.sz)
      ∧ (p.sz ≤ a → (fetchstr p a pp).reads = []) := by
  by_cases ha : a < p.sz
  · rw [fetchstr_in_range p a pp ha]
    obtain ⟨h1, h2⟩ := fetchstrLoop_reads p a p.sz (p.sz - a) a rfl
    exact ⟨h1, fetchstrLoop_reads_consecutive p a p.sz (p.sz - a) a rfl, h2,
      fun h => absurd ha (by omega)⟩
  · rw [fetchstr_out_of_range p a pp (by omega)]
    exact ⟨by simp, rfl, by simp, fun _ => rfl⟩

/-- Instances of C10 at `S = 4096`: starting at `4096` nothing is read; starting
at `4094` in a memory without zero bytes, every byte read is `4094` or `4095`. -/
theorem C10_fetchstr_scan_bounded_witness :
    ((mkProc 4096 0 0 (fun _ => 1)).sz ≤ 4096
        ∧ (fetchstr (mkProc 4096 0 0 (fun _ => 1)) 4096 0).reads = [])
      ∧ (fetchstr (mkProc 4096 0 0 (fun _ => 1)) 4094 0).reads.length
          ≤ (mkProc 4096 0 0 (fun _ => 1)).sz - 4094 :=
  ⟨⟨by decide,
      (C10_fetchstr_scan_bounded (mkProc 4096 0 0 (fun _ => 1)) 4096 0).2.2.2 (by decide)⟩,
    (C10_fetchstr_scan_bounded (mkProc 4096 0 0 (fun _ => 1)) 4094 0).1⟩

/-! Repeated fetches -/

theorem fetchintAt_ret (k : Kern) (addr : Nat) (ip : Ptr) (v : Int) :
    (fetchintAt k addr ip).1 = (fetchint k.p addr v).ret := by
  unfold fetchintAt fetchint; split_ifs <;> rfl

theorem fetchintAt_cell_eq (k : Kern) (addr : Nat) :
    fetchintAt k addr Ptr.cell
      = if addr ≥ k.p.sz ∨ (addr + 4) % 4294967296 > k.p.sz then (-1, k)
        else (0, { k with cell := toUint (loadInt k.p addr) }) := by
  unfold fetchintAt
  split_ifs <;> rfl

theorem fetchintAt_cell (k : Kern) (addr : Nat) :
    (fetchintAt k addr Ptr.cell).2.p = k.p
      ∧ fetchintAt (fetchintAt k addr Ptr.cell).2 addr Ptr.cell
          = fetchintAt k addr Ptr.cell := by
  by_cases h : addr ≥ k.p.sz ∨ (addr + 4) % 4294967296 > k.p.sz
  · have e : fetchintAt k addr Ptr.cell = (-1, k) := by
      rw [fetchintAt_cell_eq, if_pos h]
    rw [e]
    exact ⟨rfl, e⟩
  · have e : fetchintAt k addr Ptr.cell
        = (0, { k with cell := toUint (loadInt k.p addr) }) := by
      rw [fetchintAt_cell_eq, if_neg h]
    rw [e]
    refine ⟨rfl, ?_⟩
    rw [fetchintAt_cell_eq]
    simp only [if_neg h]

theorem fetchstrAt_cell_eq (k : Kern) (addr : Nat) :
    fetchstrAt k addr Ptr.cell
      = if addr ≥ k.p.sz then (-1, k)
        else ((fetchstrLoop k.p addr k.p.sz addr).1, { k with cell := addr }) := by
  unfold fetchstrAt
  split_ifs <;> rfl

theorem fetchstrAt_cell (k : Kern) (addr : Nat) :
    (fetchstrAt k addr Ptr.cell).2.p = k.p
      ∧ fetchstrAt (fetchstrAt k addr Ptr.cell).2 addr Ptr.cell
          = fetchstrAt k addr Ptr.cell := by
  by_cases h : addr ≥ k.p.sz
  · have e : fetchstrAt k addr Ptr.cell = (-1, k) := by
      rw [fetchstrAt_cell_eq, if_pos h]
    rw [e]
    exact ⟨rfl, e⟩
  · have e : fetchstrAt k addr Ptr.cell
        = ((fetchstrLoop k.p addr k.p.sz addr).1, { k with cell := addr }) := by
      rw [fetchstrAt_cell_eq, if_neg h]
    rw [e]
    refine ⟨rfl, ?_⟩
    rw [fetchstrAt_cell_eq]
    simp only [if_neg h]

theorem argptrAt_cell_eq (k : Kern) (n : Int) (size : Int) :
    argptrAt k n Ptr.cell size
      = if (argint k.p n 0).ret < 0 then (-1, k)
        else if size < 0 ∨ toUint (argint k.p n 0).out ≥ k.p.sz
            ∨ (toUint (argint k.p n 0).out + toUint size) % 4294967296 > k.p.sz then (-1, k)
        else (0, { k with cell := toUint (argint k.p n 0).out }) := by
  unfold argptrAt
  split_ifs <;> rfl

theorem argptrAt_cell (k : Kern) (n : Int) (size : Int) :
    (argptrAt k n Ptr.cell size).2.p = k.p
      ∧ argptrAt (argptrAt k n Ptr.cell size).2 n Ptr.cell size
          = argptrAt k n Ptr.cell size := by
  by_cases h1 : (argint k.p n 0).ret < 0
  · have e : argptrAt k n Ptr.cell size = (-1, k) := by
      rw [argptrAt_cell_eq, if_pos h1]
    rw [e]
    exact ⟨rfl, e⟩
  · by_cases h2 : size < 0 ∨ toUint (argint k.p n 0).out ≥ k.p.sz
        ∨ (toUint (argint k.p n 0).out + toUint size) % 4294967296 > k.p.sz
    · have e : argptrAt k n Ptr.cell size = (-1, k) := by
        rw [argptrAt_cell_eq, if_neg h1, if_pos h2]
      rw [e]
      exact ⟨rfl, e⟩
    · have e : argptrAt k n Ptr.cell size
          = (0, { k with cell := toUint (argint k.p n 0).out }) := by
        rw [argptrAt_cell_eq, if_neg h1, if_neg h2]
      rw [e]
      refine ⟨rfl, ?_⟩
      rw [argptrAt_cell_eq]
      simp only [if_neg h1, if_neg h2]

theorem argstrAt_cell (k : Kern) (n : Int) :
    (argstrAt k n Ptr.cell).2.p = k.p
      ∧ argstrAt (argstrAt k n Ptr.cell).2 n Ptr.cell = argstrAt k n Ptr.cell := by
  by_cases h : (argint k.p n 0).ret < 0
  · have e : argstrAt k n Ptr.cell = (-1, k) := by
      unfold argstrAt; rw [if_pos h]
    rw [e]
    exact ⟨rfl, e⟩
  · have e : argstrAt k n Ptr.cell
        = fetchstrAt k (toUint (argint k.p n 0).out) Ptr.cell := by
      unfold argstrAt; rw [if_neg h]
    have hp := (fetchstrAt_cell k (toUint (argint k.p n 0).out)).1
    rw [e]
    refine ⟨hp, ?_⟩
    have e2 : argstrAt (fetchstrAt k (toUint (argint k.p n 0).out) Ptr.cell).2 n Ptr.cell
        = fetchstrAt (fetchstrAt k (toUint (argint k.p n 0).out) Ptr.cell).2
            (toUint (argint k.p n 0).out) Ptr.cell := by
      unfold argstrAt
      rw [hp, if_neg h]
    rw [e2]
    exact (fetchstrAt_cell k (toUint (argint k.p n 0).out)).2

/-- C11 (as stated, refuted): with `S = 4096` and the word `2` at address 0, the
call `fetchint(0, ip)` with `ip` pointing at `curproc->sz` returns `0` and leaves
`sz = 2`, so the process state changed; the same call made again returns `-1`.
Likewise `fetchstr(100, pp)` with `pp` pointing at `curproc->sz` leaves `sz = 100`. -/
theorem C11_fetchint_aliasing_changes_state :
    (fetchintAt ⟨mkProc 4096 0 0 memTwo, 0⟩ 0 Ptr.sz).1 = 0
      ∧ (mkProc 4096 0 0 memTwo).sz = 4096
      ∧ (fetchintAt ⟨mkProc 4096 0 0 memTwo, 0⟩ 0 Ptr.sz).2.p.sz = 2
      ∧ (fetchintAt (fetchintAt ⟨mkProc 4096 0 0 memTwo, 0⟩ 0 Ptr.sz).2 0 Ptr.sz).1 = -1
      ∧ (fetchstrAt ⟨mkProc 4096 0 0 memTwo, 0⟩ 100 Ptr.sz).2.p.sz = 100 := by
  decide

/-- C11 (amended): each of `fetchint`, `fetchstr`, `argint`, `argptr` and
`argstr`, called with an output pointer that designates a location outside the
process state, leaves the process state (size, trap frame, memory) as it was,
and the same call made again right after returns the same status and leaves the
same kernel state, hence the same fetched value or pointer. -/
theorem C11_fetch_repeatable_outside (k : Kern) (addr : Nat) (n : Int) (size : Int) :
    ((fetchintAt k addr Ptr.cell).2.p = k.p
        ∧ fetchintAt (fetchintAt k addr Ptr.cell).2 addr Ptr.cell
            = fetchintAt k addr Ptr.cell)
      ∧ ((fetchstrAt k addr Ptr.cell).2.p = k.p
        ∧ fetchstrAt (fetchstrAt k addr Ptr.cell).2 addr Ptr.cell
            = fetchstrAt k addr Ptr.cell)
      ∧ ((argintAt k n Ptr.cell).2.p = k.p
        ∧ argintAt (argintAt k n Ptr.cell).2 n Ptr.cell = argintAt k n Ptr.cell)
      ∧ ((argptrAt k n Ptr.cell size).2.p = k.p
        ∧ argptrAt (argptrAt k n Ptr.cell size).2 n Ptr.cell size
            = argptrAt k n Ptr.cell size)
      ∧ ((argstrAt k n Ptr.cell).2.p = k.p
        ∧ argstrAt (argstrAt k n Ptr.cell).2 n Ptr.cell = argstrAt k n Ptr.cell) := by
  refine ⟨fetchintAt_cell k addr, fetchstrAt_cell k addr, ?_, argptrAt_cell k n size,
    argstrAt_cell k n⟩
  have hp := (fetchintAt_cell k (argAddr k.p n)).1
  refine ⟨hp, ?_⟩
  unfold argintAt
  rw [hp]
  exact (fetchintAt_cell k (argAddr k.p n)).2

/-- Instance of C11 at `S = 4096` with the word `0x12345678` at 4092:
`fetchint(4092, ip)` with `ip` at the caller's local returns `0`, stores the
word in the local, leaves `sz = 4096`, and does the same when called again. -/
theorem C11_fetch_repeatable_outside_witness :
    (fetchintAt ⟨mkProc 4096 0 0 memWord, 0⟩ 4092 Ptr.cell).1 = 0
      ∧ (fetchintAt ⟨mkProc 4096 0 0 memWord, 0⟩ 4092 Ptr.cell).2.cell = 305419896
      ∧ (fetchintAt ⟨mkProc 4096 0 0 memWord, 0⟩ 4092 Ptr.cell).2.p
          = mkProc 4096 0 0 memWord
      ∧ fetchintAt (fetchintAt ⟨mkProc 4096 0 0 memWord, 0⟩ 4092 Ptr.cell).2 4092 Ptr.cell
          = fetchintAt ⟨mkProc 4096 0 0 memWord, 0⟩ 4092 Ptr.cell :=
  ⟨by decide, by decide,
    (C11_fetch_repeatable_outside ⟨mkProc 4096 0 0 memWord, 0⟩ 4092 0 0).1.1,
    (C11_fetch_repeatable_outside ⟨mkProc 4096 0 0 memWord, 0⟩ 4092 0 0).1.2⟩

/-! The state left by `syscall` -/

theorem syscall_unknown_state (syscalls : List (Option handler)) (p : proc)
    (h : toInt p.tf.eax ≤ 0 ∨ (syscalls.length : Int) ≤ toInt p.tf.eax
          ∨ syscalls.get? (toInt p.tf.eax).toNat = some none) :
    (syscall syscalls p).p = { p with tf := { p.tf with eax := 4294967295 } } := by
  have hm : toUint (-1) = 4294967295 := by decide
  unfold syscall
  split_ifs with hc
  · obtain ⟨hpos, hlt⟩ := hc
    have hu := toUint_of_nonneg (toInt p.tf.eax) (by omega)
      (by have := toInt_upper p.tf.eax; omega)
    rcases h with h | h | h
    · omega
    · omega
    · rw [h]
      simp only [unknownCall, hm]
  · simp only [unknownCall, hm]

theorem syscall_bound_state (syscalls : List (Option handler)) (p : proc) (k : Nat)
    (h : handler) (hk1 : 1 ≤ k) (hk2 : k < syscalls.length)
    (hnum : toInt p.tf.eax = (k : Int)) (hb : syscalls.get? k = some (some h)) :
    (syscall syscalls p).p
      = { (h p).2 with tf := { (h p).2.tf with eax := toUint (h p).1 } } := by
  have hk3 : (k : Int) < 2147483648 := by have := toInt_upper p.tf.eax; omega
  have hu := toUint_of_nonneg (k : Int) (by omega) (by omega)
  have hcond : 0 < toInt p.tf.eax ∧ toUint (toInt p.tf.eax) < syscalls.length := by
    rw [hnum]; constructor <;> omega
  have hidx : (toInt p.tf.eax).toNat = k := by rw [hnum]; omega
  unfold syscall
  rw [if_pos hcond, hidx, hb]

/-- C12: `syscall()` changes the saved register image only in the return slot
`eax`, as its last step.  On the unknown-call path (`num ≤ 0`, `num ≥` table
size, or unbound slot) the final state is the initial state with `eax` set to
`0xFFFFFFFF`: size, `esp`, the other saved registers, pid, name and memory are
as before.  On the bound path the final state is the state the handler left,
with only `eax` replaced by the handler's return value. -/
theorem C12_syscall_frame (syscalls : List (Option handler)) (p : proc) :
    ((toInt p.tf.eax ≤ 0 ∨ (syscalls.length : Int) ≤ toInt p.tf.eax
          ∨ syscalls.get? (toInt p.tf.eax).toNat = some none) →
        (syscall syscalls p).p = { p with tf := { p.tf with eax := 4294967295 } }
          ∧ (syscall syscalls p).p.sz = p.sz
          ∧ (syscall syscalls p).p.tf.esp = p.tf.esp
          ∧ (syscall syscalls p).p.tf.others = p.tf.others
          ∧ (syscall syscalls p).p.pid = p.pid
          ∧ (syscall syscalls p).p.name = p.name
          ∧ (syscall syscalls p).p.mem = p.mem)
      ∧ (∀ (k : Nat) (h : handler), 1 ≤ k → k < syscalls.length →
          toInt p.tf.eax = (k : Int) → syscalls.get? k = some (some h) →
          (syscall syscalls p).p
              = { (h p).2 with tf := { (h p).2.tf with eax := toUint (h p).1 } }
            ∧ (syscall syscalls p).p.sz = (h p).2.sz
            ∧ (syscall syscalls p).p.tf.esp = (h p).2.tf.esp
            ∧ (syscall syscalls p).p.tf.others = (h p).2.tf.others
            ∧ (syscall syscalls p).p.pid = (h p).2.pid
            ∧ (syscall syscalls p).p.name = (h p).2.name
            ∧ (syscall syscalls p).p.mem = (h p).2.mem) := by
  constructor
  · intro hu
    rw [syscall_unknown_state syscalls p hu]
    exact ⟨rfl, rfl, rfl, rfl, rfl, rfl, rfl⟩
  · intro k h hk1 hk2 hnum hb
    rw [syscall_bound_state syscalls p k h hk1 hk2 hnum hb]
    exact ⟨rfl, rfl, rfl, rfl, rfl, rfl, rfl⟩

/-- Instances of C12 with the 20-entry table: call number 99 leaves size and
`esp` as they were; call number 7 runs a handler that stores 5 in the saved
`eax`, and the final `eax` is the handler's return value 42. -/
theorem C12_syscall_frame_witness :
    ((table20.length : Int) ≤ toInt (mkProc 4096 64 99 (fun _ => 0)).tf.eax
        ∧ (syscall table20 (mkProc 4096 64 99 (fun _ => 0))).p.sz = 4096
        ∧ (syscall table20 (mkProc 4096 64 99 (fun _ => 0))).p.tf.esp = 64)
      ∧ ((1 ≤ 7 ∧ 7 < table20.length ∧ toInt (mkProc 4096 64 7 (fun _ => 0)).tf.eax = 7)
        ∧ (syscall table20 (mkProc 4096 64 7 (fun _ => 0))).p.tf.eax = 42
        ∧ (syscall table20 (mkProc 4096 64 7 (fun _ => 0))).p.tf.esp = 64) :=
  ⟨⟨by decide,
      ((C12_syscall_frame table20 (mkProc 4096 64 99 (fun _ => 0))).1
        (Or.inr (Or.inl (by decide)))).2.1,
      ((C12_syscall_frame table20 (mkProc 4096 64 99 (fun _ => 0))).1
        (Or.inr (Or.inl (by decide)))).2.2.1⟩,
    ⟨by decide, by decide, by decide⟩,
    congrArg (fun q => q.tf.eax)
      ((C12_syscall_frame table20 (mkProc 4096 64 7 (fun _ => 0))).2 7
        (fun p => ((42 : Int), { p with tf := { p.tf with eax := 5 } }))
        (by decide) (by decide) (by decide) rfl).1,
    ((C12_syscall_frame table20 (mkProc 4096 64 7 (fun _ => 0))).2 7
      (fun p => ((42 : Int), { p with tf := { p.tf with eax := 5 } }))
      (by decide) (by decide) (by decide) rfl).2.2.1⟩

/-! `argstr` and zero-length `argptr` -/

theorem argstr_of_argint_fail (p : proc) (n : Int) (pp : Nat) (h : (argint p n 0).ret ≠ 0) :
    argstr p n pp = ⟨-1, pp, (argint p n 0).reads⟩ := by
  have hneg : (argint p n 0).ret < 0 := by
    rcases argint_ret_cases p n 0 with h0 | h1
    · exact absurd h0 h
    · omega
  unfold argstr
  rw [if_pos hneg]

theorem argstr_of_argint_ok (p : proc) (n : Int) (pp : Nat) (h : (argint p n 0).ret = 0) :
    argstr p n pp
      = ⟨(fetchstr p (toUint (argint p n 0).out) pp).ret,
          (fetchstr p (toUint (argint p n 0).out) pp).out,
          (argint p n 0).reads ++ (fetchstr p (toUint (argint p n 0).out) pp).reads⟩ := by
  unfold argstr
  rw [if_neg (by omega)]

/-- C13: for every process state and argument index `n`, the status and pointer
produced by `argstr(n)` are those of the specification's `FetchArgString`:
`-1` when `argint(n)` fails, and otherwise exactly the result of `fetchstr` at
the fetched value converted to `uint`; a fetched value that is negative as an
`int` is passed on as an address `≥ 2^31`, with no test of its own. -/
theorem C13_argstr_delegates (p : proc) (n : Int) (pp : Nat) :
    ((argstr p n pp).ret, (argstr p n pp).out) = argstrSpec p n pp
      ∧ ((argint p n 0).ret ≠ 0 → (argstr p n pp).ret = -1)
      ∧ ((argint p n 0).ret = 0 →
          (argstr p n pp).ret = (fetchstr p (toUint (argint p n 0).out) pp).ret
            ∧ (argstr p n pp).out = (fetchstr p (toUint (argint p n 0).out) pp).out)
      ∧ ((argint p n 0).ret = 0 → (argint p n 0).out < 0 →
          2147483648 ≤ toUint (argint p n 0).out) := by
  refine ⟨?_, ?_, ?_, ?_⟩
  · unfold argstrSpec
    by_cases h : (argint p n 0).ret = 0
    · rw [if_pos h, argstr_of_argint_ok p n pp h]
    · rw [if_neg h, argstr_of_argint_fail p n pp h]
  · intro h
    rw [argstr_of_argint_fail p n pp h]
  · intro h
    rw [argstr_of_argint_ok p n pp h]
    exact ⟨rfl, rfl⟩
  · intro h hneg
    exact toUint_of_neg _ hneg (argint_out_range p n 0 h).1

theorem fetchstr_memNeg :
    fetchstr (mkProc 2147483650 0 0 memNeg) 2147483648 0
      = ⟨toInt (2147483648 - 2147483648), 2147483648,
          List.range' 2147483648 (2147483648 - 2147483648 + 1)⟩ :=
  fetchstr_first_zero (mkProc 2147483650 0 0 memNeg) 2147483648 0 2147483648
    (le_refl _) (by decide) (by decide) (fun x hx hx2 => by omega)

/-- Instance of C13 at `S = 0x80000002`, `esp = 0`: the first argument word is
`0x80000000`, negative as an `int`; `argstr(0)` scans from address `2^31`, finds
the zero byte there and returns length `0`. -/
theorem C13_argstr_delegates_witness :
    ((argint (mkProc 2147483650 0 0 memNeg) 0 0).ret = 0
        ∧ (argint (mkProc 2147483650 0 0 memNeg) 0 0).out < 0)
      ∧ toUint (argint (mkProc 2147483650 0 0 memNeg) 0 0).out = 2147483648
      ∧ 2147483648 ≤ toUint (argint (mkProc 2147483650 0 0 memNeg) 0 0).out
      ∧ (argstr (mkProc 2147483650 0 0 memNeg) 0 0).ret
          = (fetchstr (mkProc 2147483650 0 0 memNeg) 2147483648 0).ret
      ∧ (fetchstr (mkProc 2147483650 0 0 memNeg) 2147483648 0).ret = 0 :=
  ⟨⟨by decide, by decide⟩, by decide,
    (C13_argstr_delegates (mkProc 2147483650 0 0 memNeg) 0 0).2.2.2 (by decide) (by decide),
    ((C13_argstr_delegates (mkProc 2147483650 0 0 memNeg) 0 0).2.2.1 (by decide)).1,
    by rw [fetchstr_memNeg]; decide⟩

/-- C14: a zero-length pointer argument follows the general test, with no
special case: for every process state and `n`, `argptr(n, 0)` returns `0` if and
only if `argint(n)` succeeds with a value `i` such that `(uint)i < S`, and `-1`
otherwise; so it fails for `(uint)i = S` although the requested window is empty. -/
theorem C14_argptr_zero_size (p : proc) (n : Int) (pp : Nat) :
    ((argptr p n pp 0).ret = 0 ↔
        (argint p n 0).ret = 0 ∧ toUint (argint p n 0).out < p.sz)
      ∧ ((argptr p n pp 0).ret = 0 ∨ (argptr p n pp 0).ret = -1)
      ∧ ((argint p n 0).ret = 0 → toUint (argint p n 0).out < p.sz →
          (argptr p n pp 0).ret = 0 ∧ (argptr p n pp 0).out = toUint (argint p n 0).out)
      ∧ (toUint (argint p n 0).out = p.sz → (argptr p n pp 0).ret = -1) := by
  have hz : toUint 0 = 0 := by decide
  have key : (argptr p n pp 0).ret = 0 ↔
      (argint p n 0).ret = 0 ∧ toUint (argint p n 0).out < p.sz := by
    rw [argptr_ret_zero_iff, hz]
    have := toUint_lt (argint p n 0).out
    constructor
    · rintro ⟨h1, _, h3, _⟩
      exact ⟨h1, h3⟩
    · rintro ⟨h1, h3⟩
      refine ⟨h1, le_refl 0, h3, ?_⟩
      omega
  refine ⟨key, argptr_ret_cases p n pp 0, ?_, ?_⟩
  · intro h1 h2
    have h := key.mpr ⟨h1, h2⟩
    exact ⟨h, argptr_out_of_ret_zero p n pp 0 h⟩
  · intro hi
    rcases argptr_ret_cases p n pp 0 with h | h
    · have := (key.mp h).2
      omega
    · exact h

/-- Instances of C14 at `S = 4096`: with the argument word `3840` the call
`argptr(0, 0)` succeeds with pointer `3840`; with the argument word `4096 = S`
it returns `-1`. -/
theorem C14_argptr_zero_size_witness :
    ((argint (mkProc 4096 0 0 memArg) 0 0).ret = 0
        ∧ toUint (argint (mkProc 4096 0 0 memArg) 0 0).out < (mkProc 4096 0 0 memArg).sz)
      ∧ ((argptr (mkProc 4096 0 0 memArg) 0 9 0).ret = 0
          ∧ (argptr (mkProc 4096 0 0 memArg) 0 9 0).out
              = toUint (argint (mkProc 4096 0 0 memArg) 0 0).out)
      ∧ toUint (argint (mkProc 4096 0 0 memS) 0 0).out = (mkProc 4096 0 0 memS).sz
      ∧ (argptr (mkProc 4096 0 0 memS) 0 9 0).ret = -1 :=
  ⟨⟨by decide, by decide⟩,
    (C14_argptr_zero_size (mkProc 4096 0 0 memArg) 0 9).2.2.1 (by decide) (by decide),
    by decide,
    (C14_argptr_zero_size (mkProc 4096 0 0 memS) 0 9).2.2.2 (by decide)⟩

/-! Table lookups of `syscall` -/

theorem syscall_lookups_cases (syscalls : List (Option handler)) (p : proc) :
    (syscall syscalls p).lookups = []
      ∨ ((0 < toInt p.tf.eax ∧ toUint (toInt p.tf.eax) < syscalls.length)
          ∧ ∀ i ∈ (syscall syscalls p).lookups, i = toInt p.tf.eax) := by
  unfold syscall
  split_ifs with hc
  · right
    refine ⟨hc, ?_⟩
    split <;> simp [unknownCall]
  · left
    rfl

theorem syscall_out_of_range (syscalls : List (Option handler)) (p : proc)
    (h : ¬ (0 < toInt p.tf.eax ∧ toInt p.tf.eax < (syscalls.length : Int))) :
    syscall syscalls p = unknownCall p (toInt p.tf.eax) [] := by
  have hc : ¬ (0 < toInt p.tf.eax ∧ toUint (toInt p.tf.eax) < syscalls.length) := by
    rintro ⟨hpos, hlt⟩
    have hu := toUint_of_nonneg (toInt p.tf.eax) (by omega)
      (by have := toInt_upper p.tf.eax; omega)
    exact h ⟨hpos, by omega⟩
  unfold syscall
  rw [if_neg hc]

/-- C15: the dispatcher never indexes the handler table out of range.  For every
table and every content of `eax`, each index at which `syscalls[num]` is
evaluated is the call number `num`, satisfies `0 < num <` number of entries, and
names an existing slot; whenever `num` is outside that range (values of `eax`
`≥ 2^31`, read as negative, included) no lookup happens, no handler is invoked
and the unknown-call line is written. -/
theorem C15_syscall_lookup_in_range (syscalls : List (Option handler)) (p : proc) :
    (∀ i ∈ (syscall syscalls p).lookups,
        i = toInt p.tf.eax ∧ 0 < i ∧ i < (syscalls.length : Int)
          ∧ ∃ slot, syscalls.get? i.toNat = some slot)
      ∧ (¬ (0 < toInt p.tf.eax ∧ toInt p.tf.eax < (syscalls.length : Int)) →
          (syscall syscalls p).lookups = [] ∧ (syscall syscalls p).invoked = []
            ∧ (syscall syscalls p).console = [⟨p.pid, p.name, toInt p.tf.eax⟩])
      ∧ (2147483648 ≤ p.tf.eax → p.tf.eax < 4294967296 →
          (syscall syscalls p).lookups = []) := by
  refine ⟨?_, ?_, ?_⟩
  · intro i hi
    rcases syscall_lookups_cases syscalls p with h | ⟨⟨hpos, hlt⟩, hall⟩
    · rw [h] at hi
      simp at hi
    · have hi2 := hall i hi
      have hu := toUint_of_nonneg (toInt p.tf.eax) (by omega)
        (by have := toInt_upper p.tf.eax; omega)
      subst hi2
      have hidx : (toInt p.tf.eax).toNat < syscalls.length := by omega
      refine ⟨rfl, hpos, by omega, ?_⟩
      exact ⟨syscalls.get ⟨(toInt p.tf.eax).toNat, hidx⟩, List.get?_eq_get hidx⟩
  · intro h
    rw [syscall_out_of_range syscalls p h]
    exact ⟨rfl, rfl, rfl⟩
  · intro h1 h2
    have hneg : toInt p.tf.eax < 0 := by
      rw [toInt_of_ge p.tf.eax h1 h2]; omega
    rw [syscall_out_of_range syscalls p (by omega)]
    rfl

/-- Instances of C15 with the 20-entry table: `eax = 0x80000007` (a negative
`num`) and `eax = 20` cause no lookup; `eax = 7` looks up index 7 only. -/
theorem C15_syscall_lookup_in_range_witness :
    ((2147483648 ≤ (mkProc 4096 0 2147483655 (fun _ => 0)).tf.eax
        ∧ (mkProc 4096 0 2147483655 (fun _ => 0)).tf.eax < 4294967296)
        ∧ (syscall table20 (mkProc 4096 0 2147483655 (fun _ => 0))).lookups = [])
      ∧ (¬ (0 < toInt (mkProc 4096 0 20 (fun _ => 0)).tf.eax
            ∧ toInt (mkProc 4096 0 20 (fun _ => 0)).tf.eax < (table20.length : Int))
        ∧ (syscall table20 (mkProc 4096 0 20 (fun _ => 0))).lookups = [])
      ∧ ((7 : Int) ∈ (syscall table20 (mkProc 4096 0 7 (fun _ => 0))).lookups
        ∧ (0 : Int) < 7 ∧ (7 : Int) < (table20.length : Int)) :=
  ⟨⟨⟨by decide, by decide⟩,
      (C15_syscall_lookup_in_range table20 (mkProc 4096 0 2147483655 (fun _ => 0))).2.2
        (by decide) (by decide)⟩,
    ⟨by decide,
      ((C15_syscall_lookup_in_range table20 (mkProc 4096 0 20 (fun _ => 0))).2.1
        (by decide)).1⟩,
    ⟨by decide,
      ((C15_syscall_lookup_in_range table20 (mkProc 4096 0 7 (fun _ => 0))).1 7
        (by decide)).2.1,
      ((C15_syscall_lookup_in_range table20 (mkProc 4096 0 7 (fun _ => 0))).1 7
        (by decide)).2.2.1⟩⟩

/-! Behaviour under the xv6 size limit `S ≤ 0x80000000` -/

/-- C16: under `S ≤ 0x80000000` the wrapping 32-bit sums of the checks agree with
the unbounded sums.  `fetchint(a)` returns `0` if and only if `a + 4 ≤ S` over
the naturals, and then `a + 4` did not wrap; given that `argint(n)` yields `i`,
`argptr(n, size)` returns `0` if and only if `size ≥ 0`, `(uint)i < S` and
`(uint)i + size ≤ S` over the naturals, and then `(uint)i + size` did not wrap. -/
theorem C16_sums_do_not_wrap (p : proc) (a : Nat) (ip : Int) (n : Int) (pp : Nat)
    (size : Int) (hS : p.sz ≤ 2147483648) (hsize : size < 2147483648) :
    ((fetchint p a ip).ret = 0 ↔ a + 4 ≤ p.sz)
      ∧ ((fetchint p a ip).ret = 0 → (a + 4) % 4294967296 = a + 4)
      ∧ ((argint p n 0).ret = 0 →
          ((argptr p n pp size).ret = 0 ↔
            0 ≤ size ∧ toUint (argint p n 0).out < p.sz
              ∧ (toUint (argint p n 0).out : Int) + size ≤ p.sz))
      ∧ ((argptr p n pp size).ret = 0 →
          (toUint (argint p n 0).out + toUint size) % 4294967296
              = toUint (argint p n 0).out + toUint size
            ∧ ((toUint (argint p n 0).out + toUint size : Nat) : Int)
              = (toUint (argint p n 0).out : Int) + size) := by
  refine ⟨?_, ?_, ?_, ?_⟩
  · rw [fetchint_ret_zero_iff]; omega
  · intro h
    have := (fetchint_ret_zero_iff p a ip).mp h
    omega
  · intro h0
    rw [argptr_ret_zero_iff]
    constructor
    · rintro ⟨_, h2, h3, h4⟩
      have := toUint_of_nonneg size h2 (by omega)
      exact ⟨h2, h3, by omega⟩
    · rintro ⟨h2, h3, h4⟩
      have := toUint_of_nonneg size h2 (by omega)
      exact ⟨h0, h2, h3, by omega⟩
  · intro h
    obtain ⟨_, h2, h3, _⟩ := (argptr_ret_zero_iff p n pp size).mp h
    have := toUint_of_nonneg size h2 (by omega)
    constructor <;> omega

/-- Instance of C16 at `S = 4096`: `fetchint(4092)` succeeds since `4092 + 4 ≤ S`,
and `argptr(0, 256)` with the argument word `3840` succeeds since
`3840 + 256 ≤ S`. -/
theorem C16_sums_do_not_wrap_witness :
    ((mkProc 4096 0 0 memArg).sz ≤ 2147483648 ∧ (256 : Int) < 2147483648
        ∧ 4092 + 4 ≤ (mkProc 4096 0 0 memArg).sz
        ∧ (argint (mkProc 4096 0 0 memArg) 0 0).ret = 0)
      ∧ (fetchint (mkProc 4096 0 0 memArg) 4092 0).ret = 0
      ∧ (argptr (mkProc 4096 0 0 memArg) 0 9 256).ret = 0 :=
  ⟨⟨by decide, by decide, by decide, by decide⟩,
    (C16_sums_do_not_wrap (mkProc 4096 0 0 memArg) 4092 0 0 9 256 (by decide)
      (by decide)).1.mpr (by decide),
    ((C16_sums_do_not_wrap (mkProc 4096 0 0 memArg) 4092 0 0 9 256 (by decide)
      (by decide)).2.2.1 (by decide)).mpr (by decide)⟩

/-- C17: failure leaves the caller's output location untouched: whenever
`fetchint` returns `-1` the `int` at `*ip` is unchanged; whenever `argptr`
returns `-1` (failed `argint`, negative size, or window out of range) the
pointer at `*pp` is unchanged; and `fetchstr` leaves `*pp` unchanged when it
fails because `addr ≥ S`. -/
theorem C17_failure_keeps_output (p : proc) (a : Nat) (ip : Int) (n : Int) (pp : Nat)
    (size : Int) :
    ((fetchint p a ip).ret = -1 → (fetchint p a ip).out = ip)
      ∧ ((argptr p n pp size).ret = -1 → (argptr p n pp size).out = pp)
      ∧ (p.sz ≤ a → (fetchstr p a pp).ret = -1 ∧ (fetchstr p a pp).out = pp) := by
  refine ⟨?_, ?_, ?_⟩
  · unfold fetchint
    split_ifs with h
    · intro _; rfl
    · intro h1; simp at h1
  · unfold argptr
    split_ifs with h1 h2
    · intro _; rfl
    · intro _; rfl
    · intro h3; simp at h3
  · intro h
    rw [fetchstr_out_of_range p a pp h]
    exact ⟨rfl, rfl⟩

/-- Instances of C17 at `S = 4096`: `fetchint(4094)` fails and leaves `7` in
`*ip`; `argptr(0, 512)` with the argument word `3840` fails (`3840 + 512 > S`)
and leaves `9` in `*pp`; `fetchstr(4096)` fails and leaves `9` in `*pp`. -/
theorem C17_failure_keeps_output_witness :
    ((fetchint (mkProc 4096 0 0 memArg) 4094 7).ret = -1
        ∧ (argptr (mkProc 4096 0 0 memArg) 0 9 512).ret = -1
        ∧ (mkProc 4096 0 0 memArg).sz ≤ 4096)
      ∧ (fetchint (mkProc 4096 0 0 memArg) 4094 7).out = 7
      ∧ (argptr (mkProc 4096 0 0 memArg) 0 9 512).out = 9
      ∧ (fetchstr (mkProc 4096 0 0 memArg) 4096 9).out = 9 :=
  ⟨⟨by decide, by decide, by decide⟩,
    (C17_failure_keeps_output (mkProc 4096 0 0 memArg) 4094 7 0 9 512).1 (by decide),
    (C17_failure_keeps_output (mkProc 4096 0 0 memArg) 4094 7 0 9 512).2.1 (by decide),
    ((C17_failure_keeps_output (mkProc 4096 0 0 memArg) 4096 7 0 9 512).2.2 (by decide)).2⟩

/-- C18: under `S ≤ 0x80000000`, every return value of `fetchstr(a)` is either
`-1` or a length `k` with `0 ≤ k < S - a` (the offset of a zero byte below `S`);
so a returned length is never negative and never equal to the failure value. -/
theorem C18_fetchstr_return_range (p : proc) (a pp : Nat) (hS : p.sz ≤ 2147483648) :
    ((fetchstr p a pp).ret = -1
        ∨ ∃ k : Nat, (fetchstr p a pp).ret = (k : Int) ∧ a + k < p.sz
            ∧ loadByte p (a + k) = 0)
      ∧ ((fetchstr p a pp).ret ≠ -1 →
          0 ≤ (fetchstr p a pp).ret ∧ (fetchstr p a pp).ret < (p.sz : Int) - (a : Int)) := by
  have main : (fetchstr p a pp).ret = -1
      ∨ ∃ k : Nat, (fetchstr p a pp).ret = (k : Int) ∧ a + k < p.sz
          ∧ loadByte p (a + k) = 0 := by
    rcases first_zero_or_none p a p.sz with hnone | ⟨z, haz, hz, hzero, hnz⟩
    · exact Or.inl (fetchstr_no_zero p a pp hnone)
    · right
      refine ⟨z - a, ?_, by omega, ?_⟩
      · rw [fetchstr_first_zero p a pp z haz hz hzero hnz]
        exact toInt_of_lt (z - a) (by omega)
      · rw [show a + (z - a) = z by omega]
        exact hzero
  refine ⟨main, ?_⟩
  intro hne
  rcases main with h | ⟨k, hk, hlt, _⟩
  · exact absurd h hne
  · omega

/-- Instance of C18 at `S = 4096`, `a = 4000`, all bytes zero: the hypothesis
holds and the returned value is not `-1`, hence within `[0, 96)`. -/
theorem C18_fetchstr_return_range_witness :
    (mkProc 4096 0 0 (fun _ => 0)).sz ≤ 2147483648
      ∧ (0 ≤ (fetchstr (mkProc 4096 0 0 (fun _ => 0)) 4000 0).ret
          ∧ (fetchstr (mkProc 4096 0 0 (fun _ => 0)) 4000 0).ret
              < ((mkProc 4096 0 0 (fun _ => 0)).sz : Int) - ((4000 : Nat) : Int)) :=
  ⟨by decide,
    (C18_fetchstr_return_range (mkProc 4096 0 0 (fun _ => 0)) 4000 0 (by decide)).2
      (by simp [fetchstr, fetchstrLoop, mkProc, loadByte, toInt])⟩

end Xv6
